import Mathlib

/-!
# Verification of the bank-transaction-parser pipeline

A shallow embedding of the statement-text-to-structured-row pipeline of the
repository (src/lib/dataCleaner.ts, src/lib/pdfParser.ts, the category mapper
and the upload route), together with proofs settling the frozen claims about
the natural-language specification.

JavaScript strings are modelled as `List Char` (wrapped in `String`, which in
Lean is a structure holding exactly a `List Char`).  JavaScript `null` /
`undefined` cells are modelled as `Option String` with `none`.  JavaScript
numbers produced by `parseFloat` are modelled exactly as rationals, with a
separate constructor for `NaN`; every decimal string that `parseFloat` accepts
denotes an exact rational, so no floating-point rounding is modelled (none of
the claims depends on rounding).  Each regular expression of the source is
modelled by an explicit backtracking matcher that enumerates alternatives in
the exact preference order of the JavaScript regex engine (greedy quantifiers
longest-first, lazy quantifiers shortest-first, alternation left-to-right,
leftmost match wins).
-/

namespace BankParser

/-! ## JavaScript string primitives on `List Char` -/

/-- `String.prototype.toUpperCase` on one character (ASCII range, which is the
only range appearing in the markers the source compares against). -/
def upChar (c : Char) : Char :=
  if 97 ≤ c.toNat ∧ c.toNat ≤ 122 then Char.ofNat (c.toNat - 32) else c

/-- `String.prototype.toLowerCase` on one character (ASCII range). -/
def lowChar (c : Char) : Char :=
  if 65 ≤ c.toNat ∧ c.toNat ≤ 90 then Char.ofNat (c.toNat + 32) else c

def upperL (cs : List Char) : List Char := cs.map upChar

def lowerL (cs : List Char) : List Char := cs.map lowChar

/-- `String.prototype.trim`: drop leading and trailing whitespace. -/
def trimL (cs : List Char) : List Char :=
  ((cs.dropWhile Char.isWhitespace).reverse.dropWhile Char.isWhitespace).reverse

/-- `String.prototype.includes`: substring test. -/
def containsL (s p : List Char) : Bool :=
  match s with
  | [] => p.isEmpty
  | c :: t => p.isPrefixOf (c :: t) || containsL t p

/-- `String.prototype.split` with a one-character separator. -/
def splitCharL (sep : Char) : List Char → List (List Char)
  | [] => [[]]
  | c :: rest =>
    match splitCharL sep rest with
    | [] => [[]]
    | h :: t => if c = sep then [] :: h :: t else (c :: h) :: t

/-- `String.prototype.replace` with a one-character string pattern: replace
the first occurrence only. -/
def replaceFirstCharL (old new : Char) : List Char → List Char
  | [] => []
  | c :: rest => if c = old then new :: rest else c :: replaceFirstCharL old new rest

/-- `String.prototype.replace(pat, '')` with a string pattern: remove the
first occurrence of `p`; a string with no occurrence is returned unchanged. -/
def removeFirstL : List Char → List Char → List Char
  | [], _ => []
  | c :: t, p => if p.isPrefixOf (c :: t) then (c :: t).drop p.length else c :: removeFirstL t p

/-! ## The data model -/

/-- One cell of a raw extracted row: a JavaScript string, or `null`/`undefined`. -/
abbrev Cell := Option String

/-- A raw row as produced by the table extractor (`any[]` in the source). -/
abbrev RawRow := List Cell

/-- `row[i]`: indexing out of range gives `undefined`, modelled as `none`. -/
def cellGet (row : RawRow) (i : Nat) : Cell := row.getD i none

/-- JavaScript truthiness of a cell (`null`, `undefined` and `""` are falsy). -/
def truthy (c : Cell) : Bool :=
  match c with
  | some s => !(s = "")
  | none => false

/-- `String(row[i] || '')`. -/
def cellStr (row : RawRow) (i : Nat) : String := (cellGet row i).getD ""

/-- `row[i] ? String(row[i]).trim() : ""`, as a character list. -/
def trimCellL (row : RawRow) (i : Nat) : List Char :=
  match cellGet row i with
  | some s => if s = "" then [] else trimL s.data
  | none => []

/-! ## Currency Normalizer: `cleanCurrencyValue` (src/lib/dataCleaner.ts) -/

/-- The result of `cleanCurrencyValue`: `null`, `NaN` (JavaScript `parseFloat`
on an unparseable string), or an exact number. -/
inductive JsNumber where
  | null : JsNumber
  | nan : JsNumber
  | num : ℚ → JsNumber
deriving DecidableEq, Repr

/-- `valueStr.replace(/[Rr][Pp]\s*/g, '')`: a left-to-right non-overlapping
scan removing `R`/`r` followed by `P`/`p` and the following whitespace run.
`fuel` always suffices because every step consumes at least one character. -/
def stripRpGo : Nat → List Char → List Char
  | 0, cs => cs
  | _ + 1, [] => []
  | _ + 1, [c] => [c]
  | fuel + 1, a :: b :: rest =>
    if (a = 'R' ∨ a = 'r') ∧ (b = 'P' ∨ b = 'p') then
      stripRpGo fuel (rest.dropWhile Char.isWhitespace)
    else a :: stripRpGo fuel (b :: rest)

def stripRp (cs : List Char) : List Char := stripRpGo cs.length cs

/-- The characters removed by `valueStr.replace(/[$€£¥]/g, '')`. -/
def currencySymbol (c : Char) : Bool := c = '$' || c = '€' || c = '£' || c = '¥'

/-- The four debit/credit markers, in the alternation order of the source
regex `(DB|CR|DEBIT|CREDIT)`. -/
def dbcrMarkers : List (List Char) :=
  [['D', 'B'], ['C', 'R'], ['D', 'E', 'B', 'I', 'T'], ['C', 'R', 'E', 'D', 'I', 'T']]

/-- Case-insensitively strip the pattern `p` (given in upper case) from the
front of `cs`; `some rest` on success. -/
def ciStrip : List Char → List Char → Option (List Char)
  | [], cs => some cs
  | _ :: _, [] => none
  | p :: ps, c :: cs => if upChar c = p then ciStrip ps cs else none

/-- Does `\s*(DB|CR|DEBIT|CREDIT)\s*$` (case-insensitive) match the whole of
`cs`?  Used at each start position to model the end-anchored replace. -/
def isDbCrTailFrom (cs : List Char) : Bool :=
  let cs2 := cs.dropWhile Char.isWhitespace
  dbcrMarkers.any fun m =>
    match ciStrip m cs2 with
    | some r => r.all Char.isWhitespace
    | none => false

/-- `valueStr.replace(/\s*(DB|CR|DEBIT|CREDIT)\s*$/gi, '')`: the leftmost
start position whose suffix matches is removed entirely (the match always
extends to the end of the string because of the anchor). -/
def stripTrailingDbCr : List Char → List Char
  | [] => []
  | c :: rest => if isDbCrTailFrom (c :: rest) then [] else c :: stripTrailingDbCr rest

/-- Try the markers in alternation order against the front of `cs`. -/
def tryMarkers : List (List Char) → List Char → Option (List Char)
  | [], _ => none
  | m :: ms, cs =>
    match ciStrip m cs with
    | some r => some r
    | none => tryMarkers ms cs

/-- Scanner for `valueStr.replace(/\s*(DB|CR|DEBIT|CREDIT)\s*/gi, ' ')`:
at each position try `\s*` (the whitespace run) followed by a marker and the
trailing whitespace run; on a match emit a single space and continue after the
match, otherwise keep one character.  `fuel` bounds the recursion and always
suffices because every step consumes at least one character. -/
def collapseDbCrGo : Nat → List Char → List Char
  | 0, cs => cs
  | _ + 1, [] => []
  | fuel + 1, c :: rest =>
    let afterWs := (c :: rest).dropWhile Char.isWhitespace
    match tryMarkers dbcrMarkers afterWs with
    | some r => ' ' :: collapseDbCrGo fuel (r.dropWhile Char.isWhitespace)
    | none => c :: collapseDbCrGo fuel rest

def collapseDbCr (cs : List Char) : List Char := collapseDbCrGo cs.length cs

/-- Numeric value of a digit string. -/
def digitsToNat (ds : List Char) : Nat := ds.foldl (fun acc c => acc * 10 + (c.toNat - 48)) 0

/-- JavaScript `parseFloat`, restricted to the inputs it can receive in
`cleanCurrencyValue` (after step 4 the string contains only digits, `.` and
`-`, so no exponent part, no `Infinity` and no leading whitespace can occur):
parse an optional sign, then `digits [. digits]` as the longest valid prefix;
`none` models `NaN` (no digit consumed). -/
def jsParseFloat (cs : List Char) : Option ℚ :=
  let signed :=
    match cs with
    | '-' :: rest => (true, rest)
    | '+' :: rest => (false, rest)
    | _ => (false, cs)
  let ipart := signed.2.takeWhile Char.isDigit
  let cs2 := signed.2.dropWhile Char.isDigit
  let fpart :=
    match cs2 with
    | '.' :: rest => rest.takeWhile Char.isDigit
    | _ => []
  if ipart.isEmpty ∧ fpart.isEmpty then none
  else
    let k := fpart.length
    let mag : ℚ := mkRat (digitsToNat ipart * 10 ^ k + digitsToNat fpart) (10 ^ k)
    some (if signed.1 then -mag else mag)

/-- `cleanCurrencyValue` (src/lib/dataCleaner.ts, lines 10-75).  The
`try { return parseFloat(...) } catch { return null }` of the source is
modelled faithfully to JavaScript semantics: `parseFloat` never throws, so the
`catch` is dead and an unparseable non-empty remainder yields `NaN`. -/
def cleanCurrencyValue (value : Option String) : JsNumber :=
  match value with
  | none => JsNumber.null
  | some v =>
    if v = "" then JsNumber.null
    else
      let s0 := trimL v.data
      if s0.isEmpty then JsNumber.null
      else
        let s1 := stripRp s0
        let s2 := s1.filter (fun c => !currencySymbol c)
        let s3 := stripTrailingDbCr s2
        let s4 := collapseDbCr s3
        let s5 :=
          if s4.contains ',' && s4.contains '.' then
            s4.filter (fun c => !(c = ','))
          else if s4.contains ',' then
            let commaCount := s4.count ','
            let parts := splitCharL ',' s4
            if decide (commaCount > 1) ||
               (decide (commaCount = 1) &&
                 (match (parts.drop 1).head? with
                  | some p => !p.isEmpty && decide (p.length ≤ 2)
                  | none => false)) then
              replaceFirstCharL ',' '.' (s4.filter (fun c => !(c = '.')))
            else
              if decide (parts.length = 2) && decide (((parts.drop 1).headD []).length ≤ 2) then
                ((parts.headD []).filter (fun c => !(c = '.'))) ++ '.' :: (parts.drop 1).headD []
              else
                s4.filter (fun c => !(c = ','))
          else
            if s4.count '.' > 1 then s4.filter (fun c => !(c = '.')) else s4
        let s6 := s5.filter (fun c => c.isDigit || c = '.' || c = '-')
        if s6.isEmpty then JsNumber.null
        else
          match jsParseFloat s6 with
          | some q => JsNumber.num q
          | none => JsNumber.nan

/-! ## Row Validator: `isValidTransactionRow` (src/lib/dataCleaner.ts) -/

/-- The unanchored test `/\d{1,2}\/\d{1,2}/.test(s)`: for an unanchored
`test`, a match exists exactly when some digit is followed by `/` and a
digit. -/
def hasSlashDate : List Char → Bool
  | a :: b :: c :: rest => (a.isDigit && b = '/' && c.isDigit) || hasSlashDate (b :: c :: rest)
  | _ => false

def tanggalMarker : List Char := "TANGGAL".data

/-- `isValidTransactionRow` (src/lib/dataCleaner.ts, lines 92-124). -/
def isValidTransactionRow (row : RawRow) : Bool :=
  if row.length < 2 then false
  else
    let firstCell :=
      if truthy (cellGet row 0) then upperL (trimL ((cellGet row 0).getD "").data) else []
    if containsL firstCell tanggalMarker then false
    else if row.all (fun cell =>
        match cell with
        | none => true
        | some s => (trimL s.data).isEmpty) then false
    else
      let firstCellStr := trimCellL row 0
      if hasSlashDate firstCellStr then true
      else
        let secondCellStr := trimCellL row 1
        let thirdCellStr := trimCellL row 2
        !secondCellStr.isEmpty || !thirdCellStr.isEmpty

/-! ## Line Merger: `mergeTransactionLines` (src/lib/dataCleaner.ts) -/

/-- The continuation-row merge (the `else` branch of the loop body of
`mergeTransactionLines`, lines 155-183): append detail and description,
backfill amount and balance only when currently empty. -/
def contMerge (cur row : RawRow) : RawRow :=
  let detailValue := trimCellL row 2
  let cur1 :=
    if !detailValue.isEmpty then
      let currentDetail := trimCellL cur 2
      cur.set 2 (some (String.mk
        (if currentDetail.isEmpty then detailValue else currentDetail ++ ' ' :: detailValue)))
    else cur
  let keteranganValue := trimCellL row 1
  let cur2 :=
    if !keteranganValue.isEmpty then
      let currentKeterangan := trimCellL cur1 1
      cur1.set 1 (some (String.mk
        (if currentKeterangan.isEmpty then keteranganValue
         else currentKeterangan ++ ' ' :: keteranganValue)))
    else cur1
  let mutasiValue := trimCellL row 3
  let cur3 :=
    if !mutasiValue.isEmpty && (trimCellL cur2 3).isEmpty then
      cur2.set 3 (some (String.mk mutasiValue))
    else cur2
  let saldoValue := trimCellL row 4
  if !saldoValue.isEmpty && (trimCellL cur3 4).isEmpty then
    cur3.set 4 (some (String.mk saldoValue))
  else cur3

/-- One step of the fold in `mergeTransactionLines`: state is the output list
and the optional current-transaction accumulator. -/
def mergeStep (st : List RawRow × Option RawRow) (row : RawRow) : List RawRow × Option RawRow :=
  if row.length < 5 then st
  else
    let tanggal := trimL (cellStr row 0).data
    if hasSlashDate tanggal then
      (st.1 ++ st.2.toList, some row)
    else
      match st.2 with
      | none => st
      | some cur => (st.1, some (contMerge cur row))

/-- `mergeTransactionLines` (src/lib/dataCleaner.ts, lines 129-192). -/
def mergeTransactionLines (rows : List RawRow) : List RawRow :=
  if rows.isEmpty then []
  else
    let st := rows.foldl mergeStep ([], none)
    st.1 ++ st.2.toList

/-! ## Transaction Cleaner: `cleanTransactionData` (src/lib/dataCleaner.ts) -/

/-- The canonical transaction record (`TransactionRow` in src/lib/types.ts;
the `DETAIL TRANSAKSI` field name contains a space in the source). -/
structure TransactionRow where
  TANGGAL : String
  KETERANGAN : String
  DETAIL_TRANSAKSI : String
  MUTASI : JsNumber
  SALDO : JsNumber
deriving DecidableEq, Repr

/-- Pad a row to at least 5 cells with `null`. -/
def padTo5 (row : RawRow) : RawRow := row ++ List.replicate (5 - row.length) none

/-- The per-row conversion inside `cleanTransactionData`. -/
def toRecord (row : RawRow) : TransactionRow :=
  let paddedRow := padTo5 row
  { TANGGAL := String.mk (trimCellL paddedRow 0)
    KETERANGAN := String.mk (trimCellL paddedRow 1)
    DETAIL_TRANSAKSI := String.mk (trimCellL paddedRow 2)
    MUTASI := cleanCurrencyValue (cellGet paddedRow 3)
    SALDO := cleanCurrencyValue (cellGet paddedRow 4) }

/-- `cleanTransactionData` (src/lib/dataCleaner.ts, lines 197-231). -/
def cleanTransactionData (rawRows : List RawRow) : List TransactionRow :=
  if rawRows.isEmpty then []
  else
    let validRows := rawRows.filter isValidTransactionRow
    let mergedRows := mergeTransactionLines validRows
    (mergedRows.map toRecord).filter fun r => !(r.TANGGAL = "") && !(trimL r.TANGGAL.data).isEmpty

/-! ## Category Mapper: `mapCategory` (src/lib/categoryMapper.ts) -/

/-- A category rule (`Category` in src/lib/types.ts). -/
structure Category where
  category : String
  keywords : List String
deriving DecidableEq, Repr

/-- The inner keyword loop of `mapCategory`: first keyword whose
lowercase-trimmed form is non-empty (JavaScript truthiness of `keywordLower`)
and a substring of the description wins. -/
def findKw (descriptionLower : List Char) (name : String) : List String → Option String
  | [] => none
  | keyword :: rest =>
    let keywordLower := trimL (lowerL keyword.data)
    if !keywordLower.isEmpty && containsL descriptionLower keywordLower then some name
    else findKw descriptionLower name rest

/-- The outer rule loop of `mapCategory`: rules with empty name or empty
keyword list are skipped; the first rule with a matching keyword wins. -/
def findCat (descriptionLower : List Char) : List Category → Option String
  | [] => none
  | catDict :: rest =>
    if catDict.category = "" ∨ catDict.keywords.isEmpty then findCat descriptionLower rest
    else
      match findKw descriptionLower catDict.category catDict.keywords with
      | some n => some n
      | none => findCat descriptionLower rest

/-- `mapCategory` (src/lib/categoryMapper.ts, lines 11-46). -/
def mapCategory (description : Option String) (categoryConfig : List Category) : String :=
  match description with
  | none => "Uncategorized"
  | some d =>
    if d = "" then "Uncategorized"
    else
      let descriptionLower := trimL (lowerL d.data)
      if descriptionLower.isEmpty then "Uncategorized"
      else
        match findCat descriptionLower categoryConfig with
        | some name => name
        | none => "Uncategorized"

/-! ## Table Extractor (src/lib/pdfParser.ts)

Regular expressions are modelled by candidate enumeration in the exact
preference order of the JavaScript backtracking engine: each component maps a
character list to the list of `(consumed, rest)` splits it can produce, most
preferred first, and sequencing is the list monad bind (so later components
backtrack before earlier ones, as in the engine).  The overall match is the
head of the candidate list. -/

def numChar (c : Char) : Bool := c.isDigit || c = '.' || c = ',' || c = '-'

/-- `.` of a JavaScript regex without the `s` flag: any char except a line
terminator. -/
def dotChar (c : Char) : Bool :=
  !(c = '\n' || c = '\r' || c = Char.ofNat 0x2028 || c = Char.ofNat 0x2029)

/-- All non-empty prefixes of the leading run of characters satisfying `p`,
with the corresponding rests, shortest first.  This enumerates the possible
consumptions of a character-class quantifier. -/
def runPrefixes (p : Char → Bool) : List Char → List (List Char × List Char)
  | [] => []
  | c :: rest =>
    if p c then ([c], rest) :: (runPrefixes p rest).map (fun pr => (c :: pr.1, pr.2))
    else []

/-- `\s+`, greedy: longest split first. -/
def wsPlus (cs : List Char) : List (List Char × List Char) :=
  (runPrefixes Char.isWhitespace cs).reverse

/-- `\s*`, greedy: longest split first, down to the empty split. -/
def wsStar (cs : List Char) : List (List Char × List Char) :=
  (runPrefixes Char.isWhitespace cs).reverse ++ [([], cs)]

/-- `[\d.,\-]+`, greedy: longest split first. -/
def numPlus (cs : List Char) : List (List Char × List Char) :=
  (runPrefixes numChar cs).reverse

/-- `(.+?)`, lazy: all non-empty prefixes of the leading `.`-run, shortest
first — exactly the preference order of the lazy quantifier. -/
def dotPrefixes (cs : List Char) : List (List Char × List Char) :=
  runPrefixes dotChar cs

/-- A literal (case-sensitive) pattern. -/
def litStrip (pat cs : List Char) : List (List Char × List Char) :=
  if pat.isPrefixOf cs then [(pat, cs.drop pat.length)] else []

/-- `(?:\s*(?:DB|CR))?`, greedy: try the group (whitespace longest-first,
`DB` before `CR`), then the empty alternative. -/
def optDbCr (cs : List Char) : List (List Char × List Char) :=
  ((wsStar cs).flatMap fun pr =>
    (litStrip ['D', 'B'] pr.2 ++ litStrip ['C', 'R'] pr.2).map fun m => (pr.1 ++ m.1, m.2))
  ++ [([], cs)]

/-- `[\d.,\-]+(?:\s*(?:DB|CR))?` — the amount/balance token. -/
def numToken (cs : List Char) : List (List Char × List Char) :=
  (numPlus cs).flatMap fun n => (optDbCr n.2).map fun m => (n.1 ++ m.1, m.2)

/-- `\d{1,2}`, greedy: two digits before one. -/
def digits12 : List Char → List (List Char × List Char)
  | [] => []
  | [a] => if a.isDigit then [([a], [])] else []
  | a :: b :: rest =>
    if a.isDigit then
      if b.isDigit then [([a, b], rest), ([a], b :: rest)] else [([a], b :: rest)]
    else []

def dateSep (c : Char) : Bool := c = '/' || c = '-'

/-- `\d{1,2}[\/\-]\d{1,2}` — one date fragment. -/
def dateFrag (cs : List Char) : List (List Char × List Char) :=
  (digits12 cs).flatMap fun d1 =>
    match d1.2 with
    | sep :: r2 =>
      if dateSep sep then (digits12 r2).map (fun d2 => (d1.1 ++ sep :: d2.1, d2.2)) else []
    | [] => []

/-- `\d{1,2}[\/\-]\d{1,2}(?:\s+\d{1,2}[\/\-]\d{1,2})?` — group 1 of the
transaction pattern (greedy: the two-fragment alternative first). -/
def g1Date (cs : List Char) : List (List Char × List Char) :=
  (dateFrag cs).flatMap fun a =>
    ((wsPlus a.2).flatMap fun w => (dateFrag w.2).map fun b => (a.1 ++ w.1 ++ b.1, b.2)) ++ [a]

/-- All matches of the anchored transaction pattern
`^(date)\s+(.+?)\s+(num)\s+(num)$` with their captures `(date, description,
mutasi, saldo)`, in engine preference order. -/
def matchTransCandidates (cs : List Char) :
    List (List Char × List Char × List Char × List Char) :=
  (g1Date cs).flatMap fun date =>
  (wsPlus date.2).flatMap fun w1 =>
  (dotPrefixes w1.2).flatMap fun desc =>
  (wsPlus desc.2).flatMap fun w2 =>
  (numToken w2.2).flatMap fun m =>
  (wsPlus m.2).flatMap fun w3 =>
  (numToken w3.2).flatMap fun sa =>
  if sa.2.isEmpty then [(date.1, desc.1, m.1, sa.1)] else []

/-- `trimmed.match(transactionPattern)` (src/lib/pdfParser.ts, line 157),
returning the four captures on success. -/
def matchTransactionLine (cs : List Char) :
    Option (List Char × List Char × List Char × List Char) :=
  (matchTransCandidates cs).head?

/-- The global `exec` loop over `/([\d.,\-]+(?:\s*(?:DB|CR))?)/g`
(src/lib/pdfParser.ts, lines 87-93): repeatedly take the leftmost greedy
match and continue after it; each `match[1].trim()` is collected.  `fuel`
always suffices because every step consumes at least one character. -/
def execNumbersGo : Nat → List Char → List String
  | 0, _ => []
  | _ + 1, [] => []
  | fuel + 1, c :: rest =>
    if numChar c then
      match (numToken (c :: rest)).head? with
      | some t => String.mk (trimL t.1) :: execNumbersGo fuel t.2
      | none => execNumbersGo fuel rest
    else execNumbersGo fuel rest

def execNumbers (cs : List Char) : List String := execNumbersGo cs.length cs

/-- `a || b` on strings-as-lists (empty is falsy). -/
def jsOrL (a b : List Char) : List Char := if a.isEmpty then b else a

/-- `description.split(/\s{2,}/)`: split on each maximal whitespace run of
length at least two (single whitespace characters stay inside the pieces).
`fuel` always suffices because every step consumes at least one character;
the fuel-exhausted clause closes the current piece with everything left. -/
def splitWs2Go : Nat → List Char → List Char → List (List Char)
  | 0, acc, rest => [acc.reverse ++ rest]
  | _ + 1, acc, [] => [acc.reverse]
  | fuel + 1, acc, c :: rest =>
    if c.isWhitespace && (match rest with | d :: _ => d.isWhitespace | [] => false) then
      acc.reverse :: splitWs2Go fuel [] ((c :: rest).dropWhile Char.isWhitespace)
    else splitWs2Go fuel (c :: acc) rest

def splitWs2 (cs : List Char) : List (List Char) := splitWs2Go cs.length [] cs

/-- `parts.join(' ')`. -/
def joinSp : List (List Char) → List Char
  | [] => []
  | [x] => x
  | x :: y :: rest => x ++ ' ' :: joinSp (y :: rest)

/-- The date-led branch of `parseFixedWidthLine` (src/lib/pdfParser.ts,
lines 82-128): `date` is the matched leading date fragment and `rest` the
remainder of the line. -/
def parseDateLine (date rest : List Char) : RawRow :=
  let restOfLine := trimL rest
  let numbers := execNumbers restOfLine
  let n := numbers.length
  let saldo :=
    if n ≥ 2 then (numbers.getD (n - 1) "").data
    else if n = 1 then (numbers.getD 0 "").data
    else []
  let mutasi := if n ≥ 2 then (numbers.getD (n - 2) "").data else []
  let description := restOfLine
  let description1 :=
    if !mutasi.isEmpty then trimL (removeFirstL description mutasi) else description
  let description2 :=
    if !saldo.isEmpty then trimL (removeFirstL description1 saldo) else description1
  let descParts := splitWs2 description2
  let keterangan := descParts.headD []
  let detailTransaksi :=
    jsOrL (joinSp (descParts.drop 1)) (trimL (description2.drop keterangan.length))
  [some (String.mk date), some (String.mk keterangan),
   some (String.mk (jsOrL detailTransaksi description2)),
   some (String.mk mutasi), some (String.mk saldo)]

/-- `parseFixedWidthLine` (src/lib/pdfParser.ts, lines 63-129). -/
def parseFixedWidthLine (line : String) : RawRow :=
  if line = "" ∨ (trimL line.data).isEmpty then []
  else
    match (dateFrag line.data).head? with
    | none =>
      let trimmed := trimL line.data
      if trimmed.length > 0 then [some "", some (String.mk trimmed), some "", some "", some ""]
      else []
    | some d => parseDateLine d.1 d.2

/-- One line of `parseTableWithRegex` (src/lib/pdfParser.ts, lines 141-183);
the state is `(headerFound/inTable, rows)` — the two flags of the source are
always equal. -/
def regexStep (st : Bool × List RawRow) (rawLine : List Char) : Bool × List RawRow :=
  let trimmed := trimL rawLine
  if !st.1 && containsL (upperL trimmed) tanggalMarker then (true, st.2)
  else if !st.1 then st
  else
    match matchTransactionLine trimmed with
    | some (date, description, mutasi, saldo) =>
      let descParts := splitWs2 description
      let keterangan := descParts.headD []
      let detailTransaksi :=
        jsOrL (joinSp (descParts.drop 1)) (trimL (description.drop keterangan.length))
      (true, st.2 ++ [[some (String.mk (trimL date)), some (String.mk keterangan),
        some (String.mk detailTransaksi), some (String.mk (trimL mutasi)),
        some (String.mk (trimL saldo))]])
    | none =>
      if !(dateFrag trimmed).isEmpty then
        let parsed := parseFixedWidthLine (String.mk trimmed)
        if parsed.length ≥ 3 then (true, st.2 ++ [parsed]) else (true, st.2)
      else if decide (trimmed.length > 10) && !(!trimmed.isEmpty && trimmed.all Char.isDigit) then
        (true, st.2 ++ [[some "", some "", some (String.mk trimmed), some "", some ""]])
      else (true, st.2)

/-- `parseTableWithRegex` (src/lib/pdfParser.ts, lines 134-186). -/
def parseTableWithRegex (text : String) : List RawRow :=
  ((splitCharL '\n' text.data).foldl regexStep (false, [])).2

def saldoAwalMarker : List Char := "SALDO AWAL".data
def saldoAkhirMarker : List Char := "SALDO AKHIR".data
def totalMarker : List Char := "TOTAL".data
def keteranganMarker : List Char := "KETERANGAN".data

/-- The three end-of-table noise markers of `parseTableFromText` (lines
32-34): the line's upper-cased form contains `SALDO AWAL`, `SALDO AKHIR` or
`TOTAL`. -/
def noiseMarkerCond (line : List Char) : Bool :=
  containsL (upperL line) saldoAwalMarker || containsL (upperL line) saldoAkhirMarker ||
    containsL (upperL line) totalMarker

/-- One line of `parseTableFromText` (src/lib/pdfParser.ts, lines 16-54). -/
def textStep (st : Bool × List RawRow) (rawLine : List Char) : Bool × List RawRow :=
  let line := trimL rawLine
  if !st.1 && containsL (upperL line) tanggalMarker && containsL (upperL line) keteranganMarker then
    (true, st.2)
  else if !st.1 then st
  else
    if (noiseMarkerCond line ||
        (decide (line.length > 0) && !(line.any Char.isDigit) && !containsL line ['/']))
       && !isValidTransactionRow (parseFixedWidthLine (String.mk line)) then
      (true, st.2)
    else
      let parsedRow := parseFixedWidthLine (String.mk line)
      if parsedRow.length > 0 then (true, st.2 ++ [parsedRow]) else (true, st.2)

/-- `parseTableFromText` (src/lib/pdfParser.ts, lines 10-57). -/
def parseTableFromText (text : String) : List RawRow :=
  ((splitCharL '\n' text.data).foldl textStep (false, [])).2

/-- `extractTablesFromPdf` (src/lib/pdfParser.ts, lines 191-218), modelled
from the point where the external `pdf-parse` collaborator has produced the
extracted text `data.text` (the binary-PDF-to-text step is out of scope of
the parsing core).  The single throw inside the `try` is re-wrapped by the
`catch` into `Error reading PDF: ...`. -/
def extractTablesFromPdf (text : String) : Except String (List RawRow) :=
  if text = "" ∨ (trimL text.data).isEmpty then
    Except.error "Error reading PDF: PDF contains no extractable text"
  else
    let rows := parseTableWithRegex text
    let rows2 := if rows.isEmpty then parseTableFromText text else rows
    Except.ok (mergeTransactionLines (rows2.filter isValidTransactionRow))

/-- The observable outcome of the upload route. -/
inductive UploadOutcome where
  | noTableFound : UploadOutcome
  | noValidData : UploadOutcome
  | success : List TransactionRow → UploadOutcome
  | serverError : String → UploadOutcome
deriving DecidableEq, Repr

/-- `POST` of src/app/api/upload/route.ts from the point where the uploaded
PDF has been read and handed to extraction (file-presence and extension
checks, category annotation and preview shaping are omitted; they do not
affect which of the four outcomes is reached).  An extraction throw is caught
and surfaced as a 500 `Error processing PDF: ...`; an empty extraction result
is the 400 `No transaction tables found in the PDF. Please verify the file
format.` outcome; an empty cleaning result is the 400 `No valid transaction
data found after cleaning.` outcome. -/
def uploadPost (text : String) : UploadOutcome :=
  match extractTablesFromPdf text with
  | Except.error msg => UploadOutcome.serverError ("Error processing PDF: " ++ msg)
  | Except.ok rawRows =>
    if rawRows.isEmpty then UploadOutcome.noTableFound
    else
      let cleanedData := cleanTransactionData rawRows
      if cleanedData.isEmpty then UploadOutcome.noValidData
      else UploadOutcome.success cleanedData

/-! ## Specification-shaped definitions

These definitions follow the wording of the specification (respectively of a
claim), for comparison with the source-shaped definitions above. -/

/-- The Row Validator exactly as the specification (claim C9) states it, as
one Boolean combination: at least 2 cells, the first cell (trimmed,
uppercased) does not contain the header marker token, not every cell is
empty/whitespace, and either the first cell matches a date fragment pattern
or the second or third cell has non-whitespace content. -/
def specRowValidator (row : RawRow) : Bool :=
  decide (2 ≤ row.length) &&
  !containsL (upperL (trimCellL row 0)) tanggalMarker &&
  !(row.all fun cell =>
      match cell with
      | none => true
      | some s => (trimL s.data).isEmpty) &&
  (hasSlashDate (trimCellL row 0) ||
    (!(trimCellL row 1).isEmpty || !(trimCellL row 2).isEmpty))

/-- Whether one keyword matches the lowercase-trimmed description under the
amended claim C7: its lowercase-trimmed form is non-empty and a substring of
the description. -/
def specKeywordMatches (dl : List Char) (k : String) : Bool :=
  !(trimL (lowerL k.data)).isEmpty && containsL dl (trimL (lowerL k.data))

/-- The Category Mapper as the amended claim C7 states it: `"Uncategorized"`
for a null/empty (or whitespace-only) description; otherwise the first rule,
in order, with non-empty name and non-empty keyword list one of whose
keywords matches (non-empty after lowercase-trimming, and a substring of the
lowercase-trimmed description) gives its name; otherwise `"Uncategorized"`. -/
def specCategoryClassify (description : Option String) (rules : List Category) : String :=
  match description with
  | none => "Uncategorized"
  | some d =>
    let dl := trimL (lowerL d.data)
    if dl.isEmpty then "Uncategorized"
    else
      match rules.find? (fun r =>
          !(r.category = "") && !r.keywords.isEmpty &&
          r.keywords.any fun k => specKeywordMatches dl k) with
      | some r => r.category
      | none => "Uncategorized"

/-- The Category Mapper exactly as claim C7 literally states it (no
non-emptiness requirement on the lowercase-trimmed keyword): the first rule
with non-empty name and non-empty keyword list one of whose lowercase-trimmed
keywords is a substring of the lowercase-trimmed description wins. -/
def claimCategoryClassify (description : Option String) (rules : List Category) : String :=
  match description with
  | none => "Uncategorized"
  | some d =>
    if d = "" then "Uncategorized"
    else
      let dl := trimL (lowerL d.data)
      match rules.find? (fun r =>
          !(r.category = "") && !r.keywords.isEmpty &&
          r.keywords.any fun k => containsL dl (trimL (lowerL k.data))) with
      | some r => r.category
      | none => "Uncategorized"

/-! ## Helper lemmas -/

theorem cellGet_set_ne (l : RawRow) (i j : Nat) (v : Cell) (h : ¬ i = j) :
    cellGet (l.set i v) j = cellGet l j := by
  simp [cellGet, List.getElem?_set_ne h]

theorem trimCellL_set_ne (l : RawRow) (i j : Nat) (v : Cell) (h : ¬ i = j) :
    trimCellL (l.set i v) j = trimCellL l j := by
  unfold trimCellL
  rw [cellGet_set_ne _ _ _ _ h]

theorem contMerge_cell3 (cur row : RawRow) (h : (trimCellL cur 3).isEmpty = false) :
    cellGet (contMerge cur row) 3 = cellGet cur 3 := by
  unfold contMerge
  dsimp only
  split_ifs <;>
    simp_all [trimCellL_set_ne, cellGet_set_ne]

theorem contMerge_cell4 (cur row : RawRow) (h : (trimCellL cur 4).isEmpty = false) :
    cellGet (contMerge cur row) 4 = cellGet cur 4 := by
  unfold contMerge
  dsimp only
  split_ifs <;>
    simp_all [trimCellL_set_ne, cellGet_set_ne]

theorem mergeStep_cont (merged : List RawRow) (cur : Option RawRow) (row : RawRow)
    (hlen : 5 ≤ row.length) (hdate : hasSlashDate (trimL (cellStr row 0).data) = false) :
    mergeStep (merged, cur) row = (merged, cur.map (fun c => contMerge c row)) := by
  have h5 : ¬ row.length < 5 := by omega
  cases cur <;> simp [mergeStep, h5, hdate]

theorem mergeStep_flush (merged : List RawRow) (cur : Option RawRow) (row : RawRow)
    (hlen : 5 ≤ row.length) (hdate : hasSlashDate (trimL (cellStr row 0).data) = true) :
    mergeStep (merged, cur) row = (merged ++ cur.toList, some row) := by
  have h5 : ¬ row.length < 5 := by omega
  simp [mergeStep, h5, hdate]

/-! ## Claims -/

/-- **C1** — The spec's three Currency Normalizer examples, evaluated on the
code: `"98,779,762.35"` and `"23,400.00"` give the stated values, but
`"1.000.000,50"` gives `1`, not the stated `1000000.5`: the
mixed-separator branch strips the commas of `"1.000.000,50"` and
`parseFloat("1.000.00050")` stops at the second dot.  This contradicts the
function's own documentation (its doc comment and the comment inside the
comma branch both present `1.000.000,50` as the handled Indonesian format),
so the code, not the claim, is wrong. -/
theorem c1_currency_examples_eval :
    cleanCurrencyValue (some "1.000.000,50") = JsNumber.num 1 ∧
    cleanCurrencyValue (some "98,779,762.35") = JsNumber.num (mkRat 9877976235 100) ∧
    cleanCurrencyValue (some "23,400.00") = JsNumber.num 23400 ∧
    ¬ cleanCurrencyValue (some "1.000.000,50") = JsNumber.num (mkRat 2000001 2) := by
  decide

/-- **C3** — The Currency Normalizer is total and returns `null` on
null/empty/whitespace-only input, but it is not true that every unparseable
remainder yields `null`: on input `"-"` the remainder after stripping is the
non-empty string `"-"`, and `parseFloat("-")` is `NaN`, which the function
returns.  The `try/catch` of the source was written to turn parse failures
into `null`, but `parseFloat` never throws, so the `catch` is dead code and
the claim describes the evident intent: the code is wrong. -/
theorem c3_currency_nan_at_dash :
    cleanCurrencyValue (some "-") = JsNumber.nan ∧
    cleanCurrencyValue none = JsNumber.null ∧
    cleanCurrencyValue (some "") = JsNumber.null ∧
    cleanCurrencyValue (some "   ") = JsNumber.null := by
  decide

/-- **C6** — Line Merger backfill: a continuation row (length at least 5,
first cell without a slash date) merges into the current accumulator, and the
accumulator's amount cell (index 3) and balance cell (index 4) are never
overwritten when already non-empty after trimming; and the concrete example
of the claim merges to exactly one row with amount `"50"` and balance
`"900"`. -/
theorem c6_backfill_no_overwrite :
    (∀ (merged : List RawRow) (cur row : RawRow),
       5 ≤ row.length →
       hasSlashDate (trimL (cellStr row 0).data) = false →
       mergeStep (merged, some cur) row = (merged, some (contMerge cur row)) ∧
       ((trimCellL cur 3).isEmpty = false → cellGet (contMerge cur row) 3 = cellGet cur 3) ∧
       ((trimCellL cur 4).isEmpty = false → cellGet (contMerge cur row) 4 = cellGet cur 4)) ∧
    mergeTransactionLines
        [[some "01/02", some "A", some "d", some "", some "900"],
         [none, none, some "", some "50", some ""]] =
      [[some "01/02", some "A", some "d", some "50", some "900"]] := by
  refine ⟨fun merged cur row hlen hdate => ⟨?_, ?_, ?_⟩, by decide⟩
  · simpa using mergeStep_cont merged (some cur) row hlen hdate
  · exact fun h => contMerge_cell3 cur row h
  · exact fun h => contMerge_cell4 cur row h

/-- Witness for C6 at a concrete continuation row with already-filled amount
and balance cells (nothing is overwritten). -/
theorem c6_backfill_no_overwrite_witness :
    mergeStep ([], some [some "01/02", some "A", some "d", some "10", some "900"])
        [none, some "B", some "x", some "50", some "77"] =
      ([], some (contMerge [some "01/02", some "A", some "d", some "10", some "900"]
        [none, some "B", some "x", some "50", some "77"])) ∧
    cellGet (contMerge [some "01/02", some "A", some "d", some "10", some "900"]
        [none, some "B", some "x", some "50", some "77"]) 3 = some "10" ∧
    cellGet (contMerge [some "01/02", some "A", some "d", some "10", some "900"]
        [none, some "B", some "x", some "50", some "77"]) 4 = some "900" := by
  have h := (c6_backfill_no_overwrite.1 []
    [some "01/02", some "A", some "d", some "10", some "900"]
    [none, some "B", some "x", some "50", some "77"] (by decide) (by decide))
  exact ⟨h.1, by rw [h.2.1 (by decide)]; decide, by rw [h.2.2 (by decide)]; decide⟩

/-- **C8** — Every record in the Transaction Cleaner's final output has a
date that is non-empty after trimming: the final filter of
`cleanTransactionData` keeps a record only when `TANGGAL` is truthy and
non-empty after trimming. -/
theorem c8_output_date_nonempty :
    ∀ (rawRows : List RawRow) (r : TransactionRow),
      r ∈ cleanTransactionData rawRows → trimL r.TANGGAL.data ≠ [] := by
  intro rawRows r hr
  unfold cleanTransactionData at hr
  split at hr
  · simp at hr
  · have h := (List.mem_filter.mp hr).2
    simp only [Bool.and_eq_true] at h
    simpa using h.2

/-- Witness for C8: a concrete cleaned record of a concrete input. -/
theorem c8_output_date_nonempty_witness :
    trimL (TransactionRow.TANGGAL
      { TANGGAL := "01/02", KETERANGAN := "A", DETAIL_TRANSAKSI := "B",
        MUTASI := JsNumber.num 10, SALDO := JsNumber.num 20 }).data ≠ [] :=
  c8_output_date_nonempty [[some "01/02", some "A", some "B", some "10", some "20"]]
    { TANGGAL := "01/02", KETERANGAN := "A", DETAIL_TRANSAKSI := "B",
      MUTASI := JsNumber.num 10, SALDO := JsNumber.num 20 } (by decide)

theorem firstCell_eq (row : RawRow) :
    (if truthy (cellGet row 0) then upperL (trimL ((cellGet row 0).getD "").data) else []) =
      upperL (trimCellL row 0) := by
  unfold truthy trimCellL
  cases cellGet row 0 with
  | none => simp [upperL]
  | some s => by_cases h : s = "" <;> simp [h, upperL]

/-- **C9** — The Row Validator is exactly the predicate the claim states,
with its rules applied in order. -/
theorem c9_row_validator_exact :
    ∀ row : RawRow, isValidTransactionRow row = specRowValidator row := by
  intro row
  unfold isValidTransactionRow specRowValidator
  dsimp only
  rw [firstCell_eq]
  by_cases h1 : row.length < 2
  · simp [h1, show ¬ 2 ≤ row.length by omega]
  · have h2 : 2 ≤ row.length := by omega
    cases hC : containsL (upperL (trimCellL row 0)) tanggalMarker <;>
      cases hA : row.all (fun cell =>
        match cell with
        | none => true
        | some s => (trimL s.data).isEmpty) <;>
      cases hD : hasSlashDate (trimCellL row 0) <;>
        simp [h1, h2, hC, hA, hD]

theorem findKw_eq (dl : List Char) (name : String) (kws : List String) :
    findKw dl name kws =
      if kws.any (fun k => specKeywordMatches dl k) then some name else none := by
  induction kws with
  | nil => simp [findKw]
  | cons k rest ih =>
    unfold findKw
    dsimp only
    cases h : specKeywordMatches dl k with
    | true =>
      have h2 : (!(trimL (lowerL k.data)).isEmpty && containsL dl (trimL (lowerL k.data))) = true := h
      simp [h2, List.any_cons, h]
    | false =>
      have h2 : (!(trimL (lowerL k.data)).isEmpty && containsL dl (trimL (lowerL k.data))) = false := h
      simp [h2, List.any_cons, h, ih]

theorem findCat_eq (dl : List Char) (rules : List Category) :
    findCat dl rules =
      (rules.find? (fun r =>
        !(r.category = "") && !r.keywords.isEmpty &&
        r.keywords.any fun k => specKeywordMatches dl k)).map Category.category := by
  induction rules with
  | nil => simp [findCat]
  | cons r rest ih =>
    unfold findCat
    by_cases hskip : r.category = "" ∨ r.keywords.isEmpty
    · have hpred : (!(r.category = "") && !r.keywords.isEmpty &&
          r.keywords.any fun k => specKeywordMatches dl k) = false := by
        rcases hskip with h | h <;> simp [h]
      rw [if_pos hskip, List.find?_cons, hpred, ih]
    · have h1 : ¬ r.category = "" := fun h => hskip (Or.inl h)
      have h2 : r.keywords.isEmpty = false := by
        cases h : r.keywords.isEmpty
        · rfl
        · exact absurd (Or.inr h) hskip
      rw [if_neg hskip, findKw_eq]
      by_cases hany : (r.keywords.any fun k => specKeywordMatches dl k) = true
      · simp [hany, List.find?_cons, h1, h2]
      · simp only [Bool.not_eq_true] at hany
        simp [hany, List.find?_cons, ih]

/-- **C7** (counterexample) — As literally stated, the claim makes the rule
`{name: "X", keywords: [" "]}` classify `"abc"` as `"X"` (the lowercase-trim
of `" "` is the empty string, which is a substring of every description), but
the code skips keywords that are empty after lowercase-trimming and returns
`"Uncategorized"`. -/
theorem c7_counterexample :
    mapCategory (some "abc") [{ category := "X", keywords := [" "] }] = "Uncategorized" ∧
    claimCategoryClassify (some "abc") [{ category := "X", keywords := [" "] }] = "X" := by
  decide

/-- **C7** (amended) — The Category Mapper is exactly the claimed classifier
once a keyword is additionally required to be non-empty after
lowercase-trimming: `"Uncategorized"` for null/empty (or whitespace-only)
descriptions, rules scanned in order skipping those with empty name or empty
keyword list, first rule with a non-empty lowercase-trimmed keyword that is a
substring of the lowercase-trimmed description wins, else
`"Uncategorized"`. -/
theorem c7_amended_classify :
    ∀ (description : Option String) (rules : List Category),
      mapCategory description rules = specCategoryClassify description rules := by
  intro description rules
  cases description with
  | none => rfl
  | some s =>
    unfold mapCategory specCategoryClassify
    dsimp only
    by_cases hs : s = ""
    · subst hs
      simp [trimL, lowerL]
    · rw [if_neg hs]
      by_cases hdl : (trimL (lowerL s.data)).isEmpty
      · simp [hdl]
      · simp only [hdl, if_neg, Bool.false_eq_true, not_false_eq_true, if_false]
        rw [findCat_eq]
        cases List.find? (fun r =>
            !(r.category = "") && !r.keywords.isEmpty &&
            r.keywords.any fun k => specKeywordMatches (trimL (lowerL s.data)) k) rules <;>
          simp

/-- **C10** — The "starts a new transaction" test of the Line Merger is the
unanchored slash-only pattern: any row (of length at least 5) whose first
cell contains `digit / digit` anywhere flushes the accumulator and starts a
new transaction from that row; any row without such a substring — including
one whose first cell is exactly the dash date `"01-02"` — is treated as a
continuation (merged into the accumulator, or dropped when none exists);
while `parseFixedWidthLine` recognizes the dash date `"01-02"` as a
transaction-line start (its first cell is the date, not the
continuation shape). -/
theorem c10_date_test_unanchored_slash_only :
    (∀ (merged : List RawRow) (cur : Option RawRow) (row : RawRow),
       5 ≤ row.length → hasSlashDate (trimL (cellStr row 0).data) = true →
       mergeStep (merged, cur) row = (merged ++ cur.toList, some row)) ∧
    (∀ (merged : List RawRow) (cur : Option RawRow) (row : RawRow),
       5 ≤ row.length → hasSlashDate (trimL (cellStr row 0).data) = false →
       mergeStep (merged, cur) row = (merged, cur.map (fun c => contMerge c row))) ∧
    hasSlashDate "01-02".data = false ∧
    hasSlashDate "xx 1/2 yy".data = true ∧
    parseFixedWidthLine "01-02 FOO 10 20" =
      [some "01-02", some "FOO", some "FOO", some "10", some "20"] :=
  ⟨mergeStep_flush, mergeStep_cont, by decide, by decide, by decide⟩

/-- Witness for C10: a first cell containing `1/2` mid-string flushes and
restarts; a dash-only first cell with no accumulator is dropped. -/
theorem c10_date_test_witness :
    mergeStep ([], some [some "01/02", some "A", some "B", some "1", some "2"])
        [some "xx 1/2 yy", some "C", some "D", some "3", some "4"] =
      ([[some "01/02", some "A", some "B", some "1", some "2"]],
        some [some "xx 1/2 yy", some "C", some "D", some "3", some "4"]) ∧
    mergeStep ([], none) [some "01-02", some "B", some "x", some "", some ""] = ([], none) := by
  constructor
  · have h := c10_date_test_unanchored_slash_only.1 []
      (some [some "01/02", some "A", some "B", some "1", some "2"])
      [some "xx 1/2 yy", some "C", some "D", some "3", some "4"] (by decide) (by decide)
    simpa using h
  · have h := c10_date_test_unanchored_slash_only.2.1 [] none
      [some "01-02", some "B", some "x", some "", some ""] (by decide) (by decide)
    simpa using h

theorem regexStep_no_header (rows : List RawRow) (l : List Char)
    (h : containsL (upperL (trimL l)) tanggalMarker = false) :
    regexStep (false, rows) l = (false, rows) := by
  simp [regexStep, h]

theorem textStep_no_header (rows : List RawRow) (l : List Char)
    (h : (containsL (upperL (trimL l)) tanggalMarker &&
          containsL (upperL (trimL l)) keteranganMarker) = false) :
    textStep (false, rows) l = (false, rows) := by
  unfold textStep
  dsimp only
  rw [Bool.not_false, Bool.true_and, h]
  simp

theorem foldl_regexStep_skip (pre post : List (List Char)) (rows : List RawRow)
    (h : ∀ l ∈ pre, containsL (upperL (trimL l)) tanggalMarker = false) :
    (pre ++ post).foldl regexStep (false, rows) = post.foldl regexStep (false, rows) := by
  induction pre with
  | nil => simp
  | cons l rest ih =>
    rw [List.cons_append, List.foldl_cons,
      regexStep_no_header rows l (h l (List.mem_cons_self l rest))]
    exact ih fun x hx => h x (List.mem_cons_of_mem l hx)

theorem foldl_textStep_skip (pre post : List (List Char)) (rows : List RawRow)
    (h : ∀ l ∈ pre, (containsL (upperL (trimL l)) tanggalMarker &&
         containsL (upperL (trimL l)) keteranganMarker) = false) :
    (pre ++ post).foldl textStep (false, rows) = post.foldl textStep (false, rows) := by
  induction pre with
  | nil => simp
  | cons l rest ih =>
    rw [List.cons_append, List.foldl_cons,
      textStep_no_header rows l (h l (List.mem_cons_self l rest))]
    exact ih fun x hx => h x (List.mem_cons_of_mem l hx)

/-- **C2** (counterexample) — On whitespace-only extracted text the claim
demands the "no transaction tables found" outcome, but the code throws `PDF
contains no extractable text` inside extraction, which the route surfaces as
a 500 `Error processing PDF: ...`, a different outcome (the spec's own error
taxonomy lists this separately as `EmptyExtractionError`). -/
theorem c2_counterexample :
    uploadPost " " = UploadOutcome.serverError
      "Error processing PDF: Error reading PDF: PDF contains no extractable text" ∧
    ¬ uploadPost " " = UploadOutcome.noTableFound := by
  decide

/-- **C2** (amended) — If the extracted text is not empty/whitespace-only and
the header marker `TANGGAL` occurs on no line, both strategies produce no
rows and the upload ends in the "no transaction tables found" outcome, with
no transaction rows; empty/whitespace-only text instead fails with the
`PDF contains no extractable text` error (also yielding no rows). -/
theorem c2_amended_no_header_outcome :
    ∀ text : String,
      (trimL text.data).isEmpty = false →
      ((splitCharL '\n' text.data).all
        fun l => !containsL (upperL (trimL l)) tanggalMarker) = true →
      extractTablesFromPdf text = Except.ok [] ∧
      uploadPost text = UploadOutcome.noTableFound := by
  intro text htrim hall
  have hne : ¬ (text = "" ∨ (trimL text.data).isEmpty) := by
    rintro (h | h)
    · subst h
      simp [trimL] at htrim
    · rw [h] at htrim
      simp at htrim
  rw [List.all_eq_true] at hall
  have hlines : ∀ l ∈ splitCharL '\n' text.data,
      containsL (upperL (trimL l)) tanggalMarker = false := by
    intro l hl
    have := hall l hl
    simpa using this
  have hregex : parseTableWithRegex text = [] := by
    unfold parseTableWithRegex
    rw [show splitCharL '\n' text.data = splitCharL '\n' text.data ++ [] by simp,
      foldl_regexStep_skip _ [] [] hlines]
    rfl
  have htext : parseTableFromText text = [] := by
    unfold parseTableFromText
    rw [show splitCharL '\n' text.data = splitCharL '\n' text.data ++ [] by simp,
      foldl_textStep_skip _ [] []
        (fun l hl => by rw [hlines l hl]; rfl)]
    rfl
  have hok : extractTablesFromPdf text = Except.ok [] := by
    unfold extractTablesFromPdf
    rw [if_neg hne, hregex]
    simp [htext, mergeTransactionLines]
  refine ⟨hok, ?_⟩
  unfold uploadPost
  rw [hok]
  rfl

/-- Witness for C2 (amended) at concrete header-free text. -/
theorem c2_amended_witness :
    extractTablesFromPdf "hello\nworld" = Except.ok [] ∧
    uploadPost "hello\nworld" = UploadOutcome.noTableFound :=
  c2_amended_no_header_outcome "hello\nworld" (by decide) (by decide)

/-- **C4** (counterexample) — In the regex strategy a line containing the
date-column marker `TANGGAL` alone (no `KETERANGAN` anywhere in the text)
does open the table, and a row is emitted from the following line, contrary
to the claim that both strategies require a header line containing both
markers and that a line with only one marker does not open the table. -/
theorem c4_counterexample :
    ((splitCharL '\n' "TANGGAL\n01/02 FOO 10 20".data).all
      fun l => !containsL (upperL (trimL l)) keteranganMarker) = true ∧
    parseTableWithRegex "TANGGAL\n01/02 FOO 10 20" =
      [[some "01/02", some "FOO", some "", some "10", some "20"]] := by
  decide

/-- **C4** (amended) — The positional strategy skips every line before its
header line, which must contain both `TANGGAL` and `KETERANGAN`; the regex
strategy skips every line before its header line, which need only contain
`TANGGAL` — a line with `TANGGAL` alone opens its table (emitting no row for
the header line itself). -/
theorem c4_amended_header_gating :
    (∀ (pre post : List (List Char)) (rows : List RawRow),
       (∀ l ∈ pre, (containsL (upperL (trimL l)) tanggalMarker &&
            containsL (upperL (trimL l)) keteranganMarker) = false) →
       (pre ++ post).foldl textStep (false, rows) = post.foldl textStep (false, rows)) ∧
    (∀ (pre post : List (List Char)) (rows : List RawRow),
       (∀ l ∈ pre, containsL (upperL (trimL l)) tanggalMarker = false) →
       (pre ++ post).foldl regexStep (false, rows) = post.foldl regexStep (false, rows)) ∧
    (∀ (rows : List RawRow) (l : List Char),
       containsL (upperL (trimL l)) tanggalMarker = true →
       regexStep (false, rows) l = (true, rows)) := by
  refine ⟨foldl_textStep_skip, foldl_regexStep_skip, fun rows l h => ?_⟩
  simp [regexStep, h]

/-- Witness for C4 (amended) at concrete lines. -/
theorem c4_amended_witness :
    (["noise 1".data, "saldo".data] ++ ["01/02 FOO 10 20".data]).foldl textStep (false, []) =
      ["01/02 FOO 10 20".data].foldl textStep (false, []) ∧
    (["noise 1".data, "saldo".data] ++ ["01/02 FOO 10 20".data]).foldl regexStep (false, []) =
      ["01/02 FOO 10 20".data].foldl regexStep (false, []) ∧
    regexStep (false, []) "TANGGAL".data = (true, []) :=
  ⟨c4_amended_header_gating.1 _ _ [] (by decide),
   c4_amended_header_gating.2.1 _ _ [] (by decide),
   c4_amended_header_gating.2.2 [] _ (by decide)⟩

/-! ## Character and substring lemmas for the noise-filter claim -/

/-- The character class of a matched date group: digits, `/`, `-`, or
whitespace (whitespace can occur between the two fragments of the optional
double date). -/
def dateChar (c : Char) : Bool := c.isDigit || dateSep c || c.isWhitespace

/-- The character class of a matched amount/balance token: `[\d.,\-]`,
whitespace, or the letters of `DB`/`CR`. -/
def numTokChar (c : Char) : Bool :=
  numChar c || c.isWhitespace || c = 'D' || c = 'B' || c = 'C' || c = 'R'

theorem containsL_mem (u p : List Char) (h : containsL u p = true) : ∀ c ∈ p, c ∈ u := by
  induction u with
  | nil =>
    intro c hc
    unfold containsL at h
    rw [List.isEmpty_iff] at h
    subst h
    cases hc
  | cons a t ih =>
    unfold containsL at h
    rw [Bool.or_eq_true] at h
    cases h with
    | inl h =>
      rw [List.isPrefixOf_iff_prefix] at h
      exact fun c hc => h.subset hc
    | inr h => exact fun c hc => List.mem_cons_of_mem a (ih h c hc)

theorem mem_dropWhile_of_neg (p : Char → Bool) (l : List Char) (c : Char)
    (hc : p c = false) (h : c ∈ l) : c ∈ l.dropWhile p := by
  induction l with
  | nil => cases h
  | cons a t ih =>
    rw [List.dropWhile_cons]
    by_cases ha : p a = true
    · rcases List.mem_cons.mp h with rfl | h2
      · rw [ha] at hc
        cases hc
      · simp [ha, ih h2]
    · simp only [Bool.not_eq_true] at ha
      simp [ha, h]

theorem mem_trimL (cs : List Char) (c : Char) (h : c ∈ cs)
    (hc : c.isWhitespace = false) : c ∈ trimL cs := by
  unfold trimL
  rw [List.mem_reverse]
  apply mem_dropWhile_of_neg _ _ _ hc
  rw [List.mem_reverse]
  exact mem_dropWhile_of_neg _ _ _ hc h

theorem trimL_subset (cs : List Char) (c : Char) (h : c ∈ trimL cs) : c ∈ cs := by
  unfold trimL at h
  rw [List.mem_reverse] at h
  have h2 := (List.dropWhile_sublist Char.isWhitespace).subset h
  rw [List.mem_reverse] at h2
  exact (List.dropWhile_sublist Char.isWhitespace).subset h2

theorem trimL_ne_nil (cs : List Char) (c : Char) (h : c ∈ cs)
    (hc : c.isWhitespace = false) : trimL cs ≠ [] := by
  intro hnil
  have := mem_trimL cs c h hc
  rw [hnil] at this
  cases this

theorem toNat_ofNat_valid (n : Nat) (h : n.isValidChar) : (Char.ofNat n).toNat = n := by
  unfold Char.ofNat
  rw [dif_pos h]
  rfl

theorem upChar_st (c : Char) (h : upChar c = 'S' ∨ upChar c = 'T') :
    c = 'S' ∨ c = 's' ∨ c = 'T' ∨ c = 't' := by
  unfold upChar at h
  by_cases hr : 97 ≤ c.toNat ∧ c.toNat ≤ 122
  · rw [if_pos hr] at h
    have hv : (c.toNat - 32).isValidChar := Or.inl (by omega)
    rcases h with h | h
    · have h2 := congrArg Char.toNat h
      rw [toNat_ofNat_valid _ hv] at h2
      have h3 : c.toNat = 115 := by
        have : Char.toNat 'S' = 83 := by decide
        omega
      have h4 := congrArg Char.ofNat h3
      rw [Char.ofNat_toNat] at h4
      exact Or.inr (Or.inl h4)
    · have h2 := congrArg Char.toNat h
      rw [toNat_ofNat_valid _ hv] at h2
      have h3 : c.toNat = 116 := by
        have : Char.toNat 'T' = 84 := by decide
        omega
      have h4 := congrArg Char.ofNat h3
      rw [Char.ofNat_toNat] at h4
      exact Or.inr (Or.inr (Or.inr h4))
  · rw [if_neg hr] at h
    rcases h with h | h
    · exact Or.inl h
    · exact Or.inr (Or.inr (Or.inl h))

/-- A line whose noise-marker condition holds contains a character whose
upper-case form is `S` or `T` (the first letter of `SALDO ...` / `TOTAL`). -/
theorem noiseMarkerCond_st (s : List Char) (h : noiseMarkerCond s = true) :
    ∃ c ∈ s, upChar c = 'S' ∨ upChar c = 'T' := by
  unfold noiseMarkerCond at h
  have key : ∀ (m : List Char) (target : Char), target ∈ m →
      containsL (upperL s) m = true → ∃ c ∈ s, upChar c = target := by
    intro m target htm hcon
    have h2 := containsL_mem _ _ hcon target htm
    unfold upperL at h2
    rcases List.mem_map.mp h2 with ⟨c, hc, hup⟩
    exact ⟨c, hc, hup⟩
  rw [Bool.or_eq_true, Bool.or_eq_true] at h
  rcases h with (h | h) | h
  · rcases key saldoAwalMarker 'S' (by decide) h with ⟨c, hc, hup⟩
    exact ⟨c, hc, Or.inl hup⟩
  · rcases key saldoAkhirMarker 'S' (by decide) h with ⟨c, hc, hup⟩
    exact ⟨c, hc, Or.inl hup⟩
  · rcases key totalMarker 'T' (by decide) h with ⟨c, hc, hup⟩
    exact ⟨c, hc, Or.inr hup⟩

/-- A string all of whose characters are date characters cannot contain the
header marker under upper-casing. -/
theorem not_contains_tanggal (u : List Char) (hu : ∀ e ∈ u, dateChar e = true) :
    containsL (upperL u) tanggalMarker = false := by
  cases hcon : containsL (upperL u) tanggalMarker
  · rfl
  · exfalso
    have hT := containsL_mem _ _ hcon 'T' (by decide)
    unfold upperL at hT
    rcases List.mem_map.mp hT with ⟨e, he, hup⟩
    have := hu e he
    rcases upChar_st e (Or.inr hup) with rfl | rfl | rfl | rfl <;> simp [dateChar, dateSep] at this

/-! ## Decomposition lemmas for the regex components

Every candidate produced by a component splits the input as
`consumed ++ rest`, with the consumed part drawn from the component's
character class. -/

theorem bool_or_elim {a b : Bool} (h : (a || b) = true) : a = true ∨ b = true := by
  cases a <;> cases b <;> simp_all

theorem runPrefixes_spec (p : Char → Bool) (cs : List Char) :
    ∀ pr ∈ runPrefixes p cs, cs = pr.1 ++ pr.2 ∧ pr.1 ≠ [] ∧ ∀ c ∈ pr.1, p c = true := by
  induction cs with
  | nil =>
    intro pr hpr
    cases hpr
  | cons a t ih =>
    intro pr hpr
    unfold runPrefixes at hpr
    by_cases ha : p a = true
    · rw [if_pos ha] at hpr
      rcases List.mem_cons.mp hpr with rfl | h2
      · refine ⟨rfl, by simp, ?_⟩
        intro c hc
        rw [List.mem_singleton] at hc
        subst hc
        exact ha
      · rcases List.mem_map.mp h2 with ⟨q, hq, rfl⟩
        rcases ih q hq with ⟨hdec, _, hchars⟩
        refine ⟨by rw [List.cons_append, ← hdec], by simp, ?_⟩
        intro c hc
        rcases List.mem_cons.mp hc with rfl | hc2
        · exact ha
        · exact hchars c hc2
    · simp only [Bool.not_eq_true] at ha
      rw [ha] at hpr
      simp at hpr

theorem wsPlus_spec (cs : List Char) :
    ∀ pr ∈ wsPlus cs, cs = pr.1 ++ pr.2 ∧ pr.1 ≠ [] ∧
      ∀ c ∈ pr.1, c.isWhitespace = true :=
  fun pr hpr => runPrefixes_spec _ cs pr (List.mem_reverse.mp hpr)

theorem wsStar_spec (cs : List Char) :
    ∀ pr ∈ wsStar cs, cs = pr.1 ++ pr.2 ∧ ∀ c ∈ pr.1, c.isWhitespace = true := by
  intro pr hpr
  rcases List.mem_append.mp hpr with h | h
  · rcases runPrefixes_spec _ cs pr (List.mem_reverse.mp h) with ⟨hdec, _, hchars⟩
    exact ⟨hdec, hchars⟩
  · rw [List.mem_singleton] at h
    subst h
    exact ⟨rfl, by intro c hc; cases hc⟩

theorem numPlus_spec (cs : List Char) :
    ∀ pr ∈ numPlus cs, cs = pr.1 ++ pr.2 ∧ pr.1 ≠ [] ∧ ∀ c ∈ pr.1, numChar c = true :=
  fun pr hpr => runPrefixes_spec _ cs pr (List.mem_reverse.mp hpr)

theorem dotPrefixes_spec (cs : List Char) :
    ∀ pr ∈ dotPrefixes cs, cs = pr.1 ++ pr.2 ∧ pr.1 ≠ [] :=
  fun pr hpr => ⟨(runPrefixes_spec _ cs pr hpr).1, (runPrefixes_spec _ cs pr hpr).2.1⟩

theorem litStrip_spec (pat cs : List Char) :
    ∀ m ∈ litStrip pat cs, cs = m.1 ++ m.2 ∧ m.1 = pat := by
  intro m hm
  unfold litStrip at hm
  by_cases hpre : pat.isPrefixOf cs = true
  · rw [if_pos hpre] at hm
    rw [List.mem_singleton] at hm
    subst hm
    rw [List.isPrefixOf_iff_prefix] at hpre
    exact ⟨(List.prefix_iff_eq_append.mp hpre).symm, rfl⟩
  · simp only [Bool.not_eq_true] at hpre
    rw [hpre] at hm
    simp at hm

theorem optDbCr_spec (cs : List Char) :
    ∀ m ∈ optDbCr cs, cs = m.1 ++ m.2 ∧
      ∀ c ∈ m.1, (c.isWhitespace || c = 'D' || c = 'B' || c = 'C' || c = 'R') = true := by
  intro m hm
  rcases List.mem_append.mp hm with h | h
  · rcases List.mem_flatMap.mp h with ⟨pr, hpr, hmap⟩
    rcases List.mem_map.mp hmap with ⟨x, hx, rfl⟩
    rcases wsStar_spec cs pr hpr with ⟨hdec1, hws⟩
    have hx2 : pr.2 = x.1 ++ x.2 ∧ (x.1 = ['D', 'B'] ∨ x.1 = ['C', 'R']) := by
      rcases List.mem_append.mp hx with h2 | h2
      · exact ⟨(litStrip_spec _ _ x h2).1, Or.inl (litStrip_spec _ _ x h2).2⟩
      · exact ⟨(litStrip_spec _ _ x h2).1, Or.inr (litStrip_spec _ _ x h2).2⟩
    refine ⟨by rw [hdec1, hx2.1, List.append_assoc], ?_⟩
    intro c hc
    rcases List.mem_append.mp hc with hc2 | hc2
    · simp [hws c hc2]
    · rcases hx2.2 with h3 | h3 <;> rw [h3] at hc2 <;> simp at hc2 <;>
        rcases hc2 with rfl | rfl <;> simp
  · rw [List.mem_singleton] at h
    subst h
    exact ⟨rfl, by intro c hc; cases hc⟩

theorem numToken_spec (cs : List Char) :
    ∀ t ∈ numToken cs, cs = t.1 ++ t.2 ∧ t.1 ≠ [] ∧ ∀ c ∈ t.1, numTokChar c = true := by
  intro t ht
  rcases List.mem_flatMap.mp ht with ⟨n, hn, hmap⟩
  rcases List.mem_map.mp hmap with ⟨m, hm, rfl⟩
  rcases numPlus_spec cs n hn with ⟨hdec1, hne, hnum⟩
  rcases optDbCr_spec n.2 m hm with ⟨hdec2, hmk⟩
  refine ⟨by rw [hdec1, hdec2, List.append_assoc], by simp [hne], ?_⟩
  intro c hc
  rcases List.mem_append.mp hc with hc2 | hc2
  · simp [numTokChar, hnum c hc2]
  · have := hmk c hc2
    rcases bool_or_elim this with h2 | h2
    · rcases bool_or_elim h2 with h3 | h3
      · rcases bool_or_elim h3 with h4 | h4
        · rcases bool_or_elim h4 with h5 | h5 <;> simp [numTokChar, h5]
        · simp [numTokChar, h4]
      · simp [numTokChar, h3]
    · simp [numTokChar, h2]

theorem digits12_spec (cs : List Char) :
    ∀ d ∈ digits12 cs, cs = d.1 ++ d.2 ∧ d.1 ≠ [] ∧ ∀ c ∈ d.1, c.isDigit = true := by
  intro d hd
  cases cs with
  | nil => cases hd
  | cons a t =>
    cases t with
    | nil =>
      rw [show digits12 [a] = if a.isDigit then [([a], [])] else [] from rfl] at hd
      by_cases ha : a.isDigit = true
      · rw [if_pos ha] at hd
        rw [List.mem_singleton] at hd
        subst hd
        refine ⟨by simp, by simp, ?_⟩
        intro c hc
        rw [List.mem_singleton] at hc
        subst hc
        exact ha
      · rw [if_neg ha] at hd
        cases hd
    | cons b rest =>
      rw [show digits12 (a :: b :: rest) =
        (if a.isDigit then
          if b.isDigit then [([a, b], rest), ([a], b :: rest)] else [([a], b :: rest)]
         else []) from rfl] at hd
      by_cases ha : a.isDigit = true
      · rw [if_pos ha] at hd
        by_cases hb : b.isDigit = true
        · rw [if_pos hb] at hd
          rcases List.mem_cons.mp hd with rfl | hd2
          · refine ⟨rfl, by simp, ?_⟩
            intro c hc
            rcases List.mem_cons.mp hc with rfl | hc2
            · exact ha
            · rw [List.mem_singleton] at hc2
              subst hc2
              exact hb
          · rw [List.mem_singleton] at hd2
            subst hd2
            refine ⟨rfl, by simp, ?_⟩
            intro c hc
            rw [List.mem_singleton] at hc
            subst hc
            exact ha
        · rw [if_neg hb] at hd
          rw [List.mem_singleton] at hd
          subst hd
          refine ⟨rfl, by simp, ?_⟩
          intro c hc
          rw [List.mem_singleton] at hc
          subst hc
          exact ha
      · rw [if_neg ha] at hd
        cases hd

theorem dateFrag_spec (cs : List Char) :
    ∀ d ∈ dateFrag cs, cs = d.1 ++ d.2 ∧ d.1 ≠ [] ∧
      (∀ c ∈ d.1, (c.isDigit || dateSep c) = true) ∧ ∃ c ∈ d.1, c.isDigit = true := by
  intro d hd
  rcases List.mem_flatMap.mp hd with ⟨d1, hd1, hrest⟩
  rcases digits12_spec cs d1 hd1 with ⟨hdec1, hne1, hdig1⟩
  cases hsep : d1.2 with
  | nil =>
    rw [hsep] at hrest
    cases hrest
  | cons sep r2 =>
    rw [hsep] at hrest
    rw [show (match sep :: r2 with
        | sep :: r2 =>
          if dateSep sep then List.map (fun d2 => (d1.1 ++ sep :: d2.1, d2.2)) (digits12 r2)
          else []
        | [] => ([] : List (List Char × List Char))) =
        (if dateSep sep then List.map (fun d2 => (d1.1 ++ sep :: d2.1, d2.2)) (digits12 r2)
         else []) from rfl] at hrest
    by_cases hds : dateSep sep = true
    · rw [if_pos hds] at hrest
      rcases List.mem_map.mp hrest with ⟨d2, hd2, rfl⟩
      rcases digits12_spec r2 d2 hd2 with ⟨hdec2, _, hdig2⟩
      have hx : ∃ x, x ∈ d1.1 := List.exists_mem_of_ne_nil _ hne1
      refine ⟨?_, by simp [hne1], ?_, ?_⟩
      · rw [hdec1, hsep, hdec2]
        simp
      · intro c hc
        rcases List.mem_append.mp hc with hc2 | hc2
        · simp [hdig1 c hc2]
        · rcases List.mem_cons.mp hc2 with rfl | hc3
          · simp [hds]
          · simp [hdig2 c hc3]
      · rcases hx with ⟨x, hx⟩
        exact ⟨x, List.mem_append.mpr (Or.inl hx), hdig1 x hx⟩
    · rw [if_neg hds] at hrest
      cases hrest

theorem g1Date_spec (cs : List Char) :
    ∀ g ∈ g1Date cs, cs = g.1 ++ g.2 ∧ g.1 ≠ [] ∧
      (∀ c ∈ g.1, dateChar c = true) ∧ ∃ c ∈ g.1, c.isDigit = true := by
  intro g hg
  rcases List.mem_flatMap.mp hg with ⟨a, ha, hrest⟩
  rcases dateFrag_spec cs a ha with ⟨hdeca, hnea, hfraga, hdiga⟩
  have fragChar : ∀ x : Char, (x.isDigit || dateSep x) = true → dateChar x = true := by
    intro x hx
    rcases bool_or_elim hx with h | h <;> simp [dateChar, h]
  rcases List.mem_append.mp hrest with h | h
  · rcases List.mem_flatMap.mp h with ⟨w, hw, hmap⟩
    rcases List.mem_map.mp hmap with ⟨b, hb, rfl⟩
    rcases wsPlus_spec a.2 w hw with ⟨hdecw, _, hwsw⟩
    rcases dateFrag_spec w.2 b hb with ⟨hdecb, _, hfragb, _⟩
    refine ⟨?_, by simp [hnea], ?_, ?_⟩
    · rw [hdeca, hdecw, hdecb]
      simp
    · intro c hc
      rcases List.mem_append.mp hc with hc2 | hc2
      · rcases List.mem_append.mp hc2 with hc3 | hc3
        · exact fragChar c (hfraga c hc3)
        · simp [dateChar, hwsw c hc3]
      · exact fragChar c (hfragb c hc2)
    · rcases hdiga with ⟨x, hx, hxd⟩
      exact ⟨x, by simp [hx], hxd⟩
  · rw [List.mem_singleton] at h
    subst h
    refine ⟨hdeca, hnea, ?_, hdiga⟩
    intro c hc
    exact fragChar c (hfraga c hc)

theorem mem_of_head?_eq {α : Type} {l : List α} {x : α} (h : l.head? = some x) : x ∈ l := by
  cases l with
  | nil => cases h
  | cons a t =>
    rw [List.head?_cons] at h
    cases h
    exact List.mem_cons_self _ _

/-- Soundness of the transaction-pattern matcher: any candidate splits the
line into date, whitespace, description, whitespace, amount, whitespace and
balance, with the groups drawn from their character classes. -/
theorem matchTransCandidates_spec (cs : List Char) :
    ∀ x ∈ matchTransCandidates cs,
      ∃ w1 w2 w3 : List Char,
        cs = x.1 ++ (w1 ++ (x.2.1 ++ (w2 ++ (x.2.2.1 ++ (w3 ++ x.2.2.2))))) ∧
        (∀ c ∈ x.1, dateChar c = true) ∧ (∃ c ∈ x.1, c.isDigit = true) ∧
        (∀ c ∈ w1, c.isWhitespace = true) ∧ (∀ c ∈ w2, c.isWhitespace = true) ∧
        (∀ c ∈ w3, c.isWhitespace = true) ∧
        x.2.1 ≠ [] ∧
        (∀ c ∈ x.2.2.1, numTokChar c = true) ∧ (∀ c ∈ x.2.2.2, numTokChar c = true) := by
  intro x hx
  unfold matchTransCandidates at hx
  rcases List.mem_flatMap.mp hx with ⟨date, hdate, hx⟩
  rcases List.mem_flatMap.mp hx with ⟨w1, hw1, hx⟩
  rcases List.mem_flatMap.mp hx with ⟨desc, hdesc, hx⟩
  rcases List.mem_flatMap.mp hx with ⟨w2, hw2, hx⟩
  rcases List.mem_flatMap.mp hx with ⟨m, hm, hx⟩
  rcases List.mem_flatMap.mp hx with ⟨w3, hw3, hx⟩
  rcases List.mem_flatMap.mp hx with ⟨sa, hsa, hx⟩
  by_cases hend : sa.2.isEmpty = true
  · rw [if_pos hend] at hx
    rw [List.mem_singleton] at hx
    subst hx
    rcases g1Date_spec cs date hdate with ⟨hdec0, _, hdatec, hdated⟩
    rcases wsPlus_spec date.2 w1 hw1 with ⟨hdec1, _, hws1⟩
    rcases dotPrefixes_spec w1.2 desc hdesc with ⟨hdec2, hdescne⟩
    rcases wsPlus_spec desc.2 w2 hw2 with ⟨hdec3, _, hws2⟩
    rcases numToken_spec w2.2 m hm with ⟨hdec4, _, hmc⟩
    rcases wsPlus_spec m.2 w3 hw3 with ⟨hdec5, _, hws3⟩
    rcases numToken_spec w3.2 sa hsa with ⟨hdec6, _, hsac⟩
    rw [List.isEmpty_iff] at hend
    refine ⟨w1.1, w2.1, w3.1, ?_, hdatec, hdated, hws1, hws2, hws3, hdescne, hmc, hsac⟩
    rw [hdec0, hdec1, hdec2, hdec3, hdec4, hdec5, hdec6, hend]
    simp
  · rw [if_neg hend] at hx
    cases hx

theorem execNumbersGo_chars (fuel : Nat) :
    ∀ cs : List Char, ∀ s ∈ execNumbersGo fuel cs, ∀ c ∈ s.data, numTokChar c = true := by
  induction fuel with
  | zero =>
    intro cs s hs
    cases hs
  | succ fuel ih =>
    intro cs s hs
    cases cs with
    | nil => cases hs
    | cons a rest =>
      rw [show execNumbersGo (fuel + 1) (a :: rest) =
          (if numChar a then
            match (numToken (a :: rest)).head? with
            | some t => String.mk (trimL t.1) :: execNumbersGo fuel t.2
            | none => execNumbersGo fuel rest
           else execNumbersGo fuel rest) from rfl] at hs
      by_cases ha : numChar a = true
      · rw [if_pos ha] at hs
        cases hh : (numToken (a :: rest)).head? with
        | none =>
          rw [hh] at hs
          exact ih rest s hs
        | some t =>
          rw [hh] at hs
          rcases List.mem_cons.mp hs with rfl | h2
          · intro c hc
            have hc2 : c ∈ trimL t.1 := hc
            have hmem := trimL_subset _ _ hc2
            exact (numToken_spec _ t (mem_of_head?_eq hh)).2.2 c hmem
          · exact ih t.2 s h2
      · rw [if_neg ha] at hs
        exact ih rest s hs

theorem execNumbers_chars (cs : List Char) :
    ∀ s ∈ execNumbers cs, ∀ c ∈ s.data, numTokChar c = true :=
  execNumbersGo_chars cs.length cs

theorem mem_removeFirstL (s p : List Char) (c : Char) (hc : c ∈ s) (hp : c ∉ p) :
    c ∈ removeFirstL s p := by
  induction s with
  | nil => cases hc
  | cons a t ih =>
    unfold removeFirstL
    by_cases hpre : p.isPrefixOf (a :: t) = true
    · rw [if_pos hpre]
      rw [List.isPrefixOf_iff_prefix] at hpre
      have hdec := List.prefix_iff_eq_append.mp hpre
      rw [← hdec] at hc
      rcases List.mem_append.mp hc with h | h
      · exact absurd h hp
      · exact h
    · rw [if_neg hpre]
      rcases List.mem_cons.mp hc with rfl | h2
      · exact List.mem_cons_self _ _
      · exact List.mem_cons_of_mem _ (ih h2)

theorem splitWs2Go_mem (fuel : Nat) :
    ∀ (acc rest : List Char) (c : Char), c.isWhitespace = false →
      c ∈ acc ∨ c ∈ rest → ∃ part ∈ splitWs2Go fuel acc rest, c ∈ part := by
  induction fuel with
  | zero =>
    intro acc rest c _ h
    refine ⟨acc.reverse ++ rest, List.mem_singleton.mpr rfl, ?_⟩
    rcases h with h | h
    · exact List.mem_append.mpr (Or.inl (List.mem_reverse.mpr h))
    · exact List.mem_append.mpr (Or.inr h)
  | succ fuel ih =>
    intro acc rest c hw h
    cases rest with
    | nil =>
      rcases h with h | h
      · exact ⟨acc.reverse, List.mem_singleton.mpr rfl, List.mem_reverse.mpr h⟩
      · cases h
    | cons d rest2 =>
      simp only [splitWs2Go]
      split
      · rcases h with h | h
        · exact ⟨acc.reverse, List.mem_cons_self _ _, List.mem_reverse.mpr h⟩
        · have h2 : c ∈ (d :: rest2).dropWhile Char.isWhitespace :=
            mem_dropWhile_of_neg _ _ _ hw h
          rcases ih [] _ c hw (Or.inr h2) with ⟨part, hpart, hcp⟩
          exact ⟨part, List.mem_cons_of_mem _ hpart, hcp⟩
      · apply ih (d :: acc) rest2 c hw
        rcases h with h | h
        · exact Or.inl (List.mem_cons_of_mem _ h)
        · rcases List.mem_cons.mp h with rfl | h2
          · exact Or.inl (List.mem_cons_self _ _)
          · exact Or.inr h2

theorem splitWs2_mem (cs : List Char) (c : Char) (hw : c.isWhitespace = false)
    (h : c ∈ cs) : ∃ part ∈ splitWs2 cs, c ∈ part :=
  splitWs2Go_mem cs.length [] cs c hw (Or.inr h)

theorem splitWs2Go_ne_nil (fuel : Nat) :
    ∀ (acc rest : List Char), splitWs2Go fuel acc rest ≠ [] := by
  induction fuel with
  | zero =>
    intro acc rest
    simp [splitWs2Go]
  | succ fuel ih =>
    intro acc rest
    cases rest with
    | nil => simp [splitWs2Go]
    | cons d rest2 =>
      simp only [splitWs2Go]
      split
      · simp
      · exact ih (d :: acc) rest2

theorem splitWs2_ne_nil (cs : List Char) : splitWs2 cs ≠ [] :=
  splitWs2Go_ne_nil cs.length [] cs

theorem mem_joinSp (l : List (List Char)) (part : List Char) (c : Char)
    (hp : part ∈ l) (hc : c ∈ part) : c ∈ joinSp l := by
  induction l with
  | nil => cases hp
  | cons x xs ih =>
    cases xs with
    | nil =>
      rw [List.mem_singleton] at hp
      subst hp
      exact hc
    | cons y rest =>
      rw [show joinSp (x :: y :: rest) = x ++ ' ' :: joinSp (y :: rest) from rfl]
      rcases List.mem_cons.mp hp with rfl | h2
      · exact List.mem_append.mpr (Or.inl hc)
      · exact List.mem_append.mpr (Or.inr (List.mem_cons_of_mem _ (ih h2)))

theorem getD_string_chars (numbers : List String) (i : Nat)
    (hall : ∀ s ∈ numbers, ∀ c ∈ s.data, numTokChar c = true) :
    ∀ c ∈ (numbers.getD i "").data, numTokChar c = true := by
  intro c hc
  rw [List.getD_eq_getElem?_getD] at hc
  cases hg : numbers[i]? with
  | none =>
    rw [hg] at hc
    cases hc
  | some s =>
    rw [hg] at hc
    exact hall s (List.getElem?_mem hg) c hc

theorem isEmpty_eq_false_of_ne_nil {α : Type} {l : List α} (h : l ≠ []) :
    l.isEmpty = false := by
  cases l with
  | nil => exact absurd rfl h
  | cons a t => rfl

theorem trimCellL_some0 (s : String) (rest : RawRow) :
    trimCellL (some s :: rest) 0 = trimL s.data := by
  unfold trimCellL cellGet
  by_cases h : s = ""
  · subst h
    simp [trimL]
  · simp [h]

theorem trimCellL_succ (x : Cell) (rest : RawRow) (i : Nat) :
    trimCellL (x :: rest) (i + 1) = trimCellL rest i := by
  unfold trimCellL cellGet
  simp

/-- Validity of an explicit 5-cell row of strings: the first cell must not
contain the header marker after trim/upper-case, some of the first three
cells must be non-blank, and either the first cell has a slash date or the
second or third cell is non-blank. -/
theorem isValid_row5 (s0 s1 s2 s3 s4 : String)
    (h1 : containsL (upperL (trimL s0.data)) tanggalMarker = false)
    (h2 : hasSlashDate (trimL s0.data) = true ∨ trimL s1.data ≠ [] ∨ trimL s2.data ≠ [])
    (h3 : trimL s0.data ≠ [] ∨ trimL s1.data ≠ [] ∨ trimL s2.data ≠ []) :
    isValidTransactionRow [some s0, some s1, some s2, some s3, some s4] = true := by
  have e1 : trimCellL [some s0, some s1, some s2, some s3, some s4] 1 = trimL s1.data := by
    rw [show (1 : Nat) = 0 + 1 from rfl, trimCellL_succ, trimCellL_some0]
  have e2 : trimCellL [some s0, some s1, some s2, some s3, some s4] 2 = trimL s2.data := by
    rw [show (2 : Nat) = 1 + 1 from rfl, trimCellL_succ,
      show (1 : Nat) = 0 + 1 from rfl, trimCellL_succ, trimCellL_some0]
  unfold isValidTransactionRow
  dsimp only
  rw [firstCell_eq]
  rw [trimCellL_some0 s0 [some s1, some s2, some s3, some s4], e1, e2, h1]
  simp only [List.length_cons, List.length_nil, List.all_cons, List.all_nil]
  by_cases hE0 : (trimL s0.data).isEmpty = true <;>
    by_cases hE1 : (trimL s1.data).isEmpty = true <;>
      by_cases hE2 : (trimL s2.data).isEmpty = true <;>
        by_cases hD : hasSlashDate (trimL s0.data) = true <;>
          simp_all [List.isEmpty_iff, Bool.not_eq_true]

/-- A non-whitespace character of the description part forces the keterangan
cell or the joined-tail detail cell to be non-blank. -/
theorem descSplit_nonempty (descL : List Char) (c : Char) (hc : c ∈ descL)
    (hw : c.isWhitespace = false) :
    trimL ((splitWs2 descL).headD []) ≠ [] ∨
      (joinSp ((splitWs2 descL).drop 1) ≠ [] ∧
        trimL (joinSp ((splitWs2 descL).drop 1)) ≠ []) := by
  rcases splitWs2_mem descL c hw hc with ⟨part, hpart, hcp⟩
  rcases List.exists_cons_of_ne_nil (splitWs2_ne_nil descL) with ⟨p0, tail, heq⟩
  rw [heq] at hpart
  rcases List.mem_cons.mp hpart with rfl | h2
  · left
    rw [heq, List.headD_cons]
    exact trimL_ne_nil _ c hcp hw
  · right
    have hcj : c ∈ joinSp ((splitWs2 descL).drop 1) := by
      rw [heq, List.drop_succ_cons, List.drop_zero]
      exact mem_joinSp tail part c h2 hcp
    refine ⟨?_, trimL_ne_nil _ c hcj hw⟩
    intro hnil
    rw [hnil] at hcj
    cases hcj

theorem st_char_props (c : Char) (hcst : upChar c = 'S' ∨ upChar c = 'T') :
    c.isWhitespace = false ∧ dateChar c = false ∧ numTokChar c = false := by
  rcases upChar_st c hcst with rfl | rfl | rfl | rfl <;>
    exact ⟨by decide, by decide, by decide⟩

theorem not_mem_of_chars (t : List Char) (P : Char → Bool)
    (hall : ∀ e ∈ t, P e = true) (c : Char) (hc : P c = false) : c ∉ t := by
  intro h
  rw [hall c h] at hc
  cases hc

theorem jsOrL_of_left_ne (a b : List Char) (h : a ≠ []) : jsOrL a b = a := by
  simp [jsOrL, isEmpty_eq_false_of_ne_nil h]

/-- A character that is in the description, not whitespace, and in neither
the amount nor the balance string survives the two removal-and-trim steps of
`parseDateLine`. -/
theorem mem_descPipeline (desc mutasi saldo : List Char) (c : Char)
    (hc : c ∈ desc) (hw : c.isWhitespace = false)
    (hm : c ∉ mutasi) (hs : c ∉ saldo) :
    c ∈ (if (!saldo.isEmpty) = true then
          trimL (removeFirstL
            (if (!mutasi.isEmpty) = true then trimL (removeFirstL desc mutasi) else desc) saldo)
         else if (!mutasi.isEmpty) = true then trimL (removeFirstL desc mutasi) else desc) := by
  have h1 : c ∈ (if (!mutasi.isEmpty) = true then trimL (removeFirstL desc mutasi) else desc) := by
    split
    · exact mem_trimL _ c (mem_removeFirstL desc mutasi c hc hm) hw
    · exact hc
  split
  · exact mem_trimL _ c (mem_removeFirstL _ saldo c h1 hs) hw
  · exact h1

/-- A row emitted from the full transaction-pattern match on a line with an
`S`/`T` character (any marker line) is valid: that character can only live in
the description group, so the keterangan or detail cell is non-blank. -/
theorem regexRow1_valid (trimmed date desc m sa : List Char)
    (hmatch : matchTransactionLine trimmed = some (date, desc, m, sa))
    (c : Char) (hcmem : c ∈ trimmed) (hcst : upChar c = 'S' ∨ upChar c = 'T') :
    isValidTransactionRow
      [some (String.mk (trimL date)),
       some (String.mk ((splitWs2 desc).headD [])),
       some (String.mk (jsOrL (joinSp ((splitWs2 desc).drop 1))
         (trimL (desc.drop ((splitWs2 desc).headD []).length)))),
       some (String.mk (trimL m)), some (String.mk (trimL sa))] = true := by
  have hx : ((date, desc, m, sa) : List Char × List Char × List Char × List Char)
      ∈ matchTransCandidates trimmed := mem_of_head?_eq hmatch
  have hspec := matchTransCandidates_spec trimmed _ hx
  dsimp only at hspec
  rcases hspec with ⟨w1, w2, w3, hdec, hdatec, _, hws1, hws2, hws3, _, hmc, hsac⟩
  obtain ⟨hwF, hdF, hnF⟩ := st_char_props c hcst
  rw [hdec] at hcmem
  have hcdesc : c ∈ desc := by
    rcases List.mem_append.mp hcmem with h | h
    · exact absurd h (not_mem_of_chars _ _ hdatec c hdF)
    rcases List.mem_append.mp h with h | h
    · exact absurd h (not_mem_of_chars _ _ hws1 c hwF)
    rcases List.mem_append.mp h with h | h
    · exact h
    rcases List.mem_append.mp h with h | h
    · exact absurd h (not_mem_of_chars _ _ hws2 c hwF)
    rcases List.mem_append.mp h with h | h
    · exact absurd h (not_mem_of_chars _ _ hmc c hnF)
    rcases List.mem_append.mp h with h | h
    · exact absurd h (not_mem_of_chars _ _ hws3 c hwF)
    · exact absurd h (not_mem_of_chars _ _ hsac c hnF)
  have hcell : trimL ((splitWs2 desc).headD []) ≠ [] ∨
      trimL (jsOrL (joinSp ((splitWs2 desc).drop 1))
        (trimL (desc.drop ((splitWs2 desc).headD []).length))) ≠ [] := by
    rcases descSplit_nonempty desc c hcdesc hwF with hk | ⟨hjne, hjt⟩
    · exact Or.inl hk
    · right
      rw [jsOrL_of_left_ne _ _ hjne]
      exact hjt
  refine isValid_row5 _ _ _ _ _ ?_ (Or.inr hcell) (Or.inr hcell)
  apply not_contains_tanggal
  intro e he
  exact hdatec e (trimL_subset _ _ (trimL_subset _ _ he))

/-- A non-whitespace character of the final description forces the
keterangan cell or the detail cell of `parseDateLine` to be non-blank (the
detail cell falls back to the whole description when the joined tail and the
suffix are both empty). -/
theorem descCells_ok (desc2 : List Char) (c : Char) (hc : c ∈ desc2)
    (hw : c.isWhitespace = false) :
    trimL ((splitWs2 desc2).headD []) ≠ [] ∨
      trimL (jsOrL (jsOrL (joinSp ((splitWs2 desc2).drop 1))
        (trimL (desc2.drop ((splitWs2 desc2).headD []).length))) desc2) ≠ [] := by
  rcases descSplit_nonempty desc2 c hc hw with hk | ⟨hjne, hjt⟩
  · exact Or.inl hk
  · right
    rw [jsOrL_of_left_ne _ _ hjne, jsOrL_of_left_ne _ _ hjne]
    exact hjt

/-- `parseDateLine` on a remainder containing a non-whitespace character
from outside the amount/balance character class produces a valid row. -/
theorem parseDateLine_valid (date rest : List Char) (c : Char)
    (hcrest : c ∈ rest) (hwF : c.isWhitespace = false) (hnF : numTokChar c = false)
    (hdchars : ∀ e ∈ date, (e.isDigit || dateSep e) = true) :
    isValidTransactionRow (parseDateLine date rest) = true ∧
      (parseDateLine date rest).length = 5 := by
  have hcr : c ∈ trimL rest := mem_trimL _ c hcrest hwF
  have hnums := execNumbers_chars (trimL rest)
  have hmchars : ∀ ch ∈ (if (execNumbers (trimL rest)).length ≥ 2 then
      ((execNumbers (trimL rest)).getD ((execNumbers (trimL rest)).length - 2) "").data
      else []), numTokChar ch = true := by
    intro ch hch
    split at hch
    · exact getD_string_chars _ _ hnums ch hch
    · cases hch
  have hschars : ∀ ch ∈ (if (execNumbers (trimL rest)).length ≥ 2 then
      ((execNumbers (trimL rest)).getD ((execNumbers (trimL rest)).length - 1) "").data
      else if (execNumbers (trimL rest)).length = 1 then
        ((execNumbers (trimL rest)).getD 0 "").data
      else []), numTokChar ch = true := by
    intro ch hch
    split at hch
    · exact getD_string_chars _ _ hnums ch hch
    · split at hch
      · exact getD_string_chars _ _ hnums ch hch
      · cases hch
  have hm := not_mem_of_chars _ _ hmchars c hnF
  have hs := not_mem_of_chars _ _ hschars c hnF
  have hcd2 := mem_descPipeline (trimL rest) _ _ c hcr hwF hm hs
  unfold parseDateLine
  dsimp only
  refine ⟨?_, rfl⟩
  have hcell := descCells_ok _ c hcd2 hwF
  refine isValid_row5 _ _ _ _ _ ?_ (Or.inr hcell) (Or.inr hcell)
  apply not_contains_tanggal
  intro e he
  have h2 := hdchars e (trimL_subset _ _ he)
  rcases bool_or_elim h2 with h3 | h3 <;> simp [dateChar, h3]

/-- `parseFixedWidthLine` on a line containing an `S`/`T` character produces
a valid 5-cell row: either the continuation shape with the whole trimmed line
as description, or a date-led row whose description keeps the character. -/
theorem parseFixedWidthLine_valid (line : List Char) (c : Char)
    (hcmem : c ∈ line) (hcst : upChar c = 'S' ∨ upChar c = 'T') :
    isValidTransactionRow (parseFixedWidthLine (String.mk line)) = true ∧
      (parseFixedWidthLine (String.mk line)).length = 5 := by
  obtain ⟨hwF, hdF, hnF⟩ := st_char_props c hcst
  have hne : ¬ (String.mk line = "" ∨ (trimL (String.mk line).data).isEmpty = true) := by
    rintro (h | h)
    · have h2 : line = [] := congrArg String.data h
      rw [h2] at hcmem
      cases hcmem
    · rw [List.isEmpty_iff] at h
      exact trimL_ne_nil line c hcmem hwF h
  unfold parseFixedWidthLine
  rw [if_neg hne]
  have hctr : c ∈ trimL line := mem_trimL _ c hcmem hwF
  cases hdf : (dateFrag (String.mk line).data).head? with
  | none =>
    dsimp only
    have hpos : (trimL (String.mk line).data).length > 0 := by
      show (trimL line).length > 0
      cases ht : trimL line with
      | nil =>
        rw [ht] at hctr
        cases hctr
      | cons a t => simp
    rw [if_pos hpos]
    refine ⟨?_, rfl⟩
    refine isValid_row5 _ _ _ _ _ (by decide) ?_ ?_
    · right
      left
      show trimL (trimL line) ≠ []
      exact trimL_ne_nil _ c hctr hwF
    · right
      left
      show trimL (trimL line) ≠ []
      exact trimL_ne_nil _ c hctr hwF
  | some d =>
    dsimp only
    rcases dateFrag_spec line d (mem_of_head?_eq hdf) with ⟨hdec, _, hdchars, _⟩
    have hfragF : (c.isDigit || dateSep c) = false := by
      have h2 := hdF
      unfold dateChar at h2
      cases hA : c.isDigit <;> cases hB : dateSep c <;> simp_all
    have hcd2 : c ∈ d.2 := by
      have hcmem2 : c ∈ d.1 ++ d.2 := by
        rw [← hdec]
        exact hcmem
      rcases List.mem_append.mp hcmem2 with h | h
      · exact absurd h (not_mem_of_chars _ _ hdchars c hfragF)
      · exact h
    exact parseDateLine_valid d.1 d.2 c hcd2 hwF hnF hdchars

/-- **C5** — Once inside the table, a line containing `SALDO AWAL`,
`SALDO AKHIR` or `TOTAL` (case-insensitive) is skipped unless it parses as a
row the Row Validator accepts, in both line-parsing strategies: each strategy
either emits nothing from such a line or emits a single row that the Row
Validator accepts.  (In the positional strategy this is the explicit noise
filter; in the regex strategy no filter exists in the code, but every row it
can emit from a marker line is provably valid, so the stated property
holds there as well.) -/
theorem c5_noise_marker_filter :
    ∀ (rows : List RawRow) (line : List Char),
      noiseMarkerCond (trimL line) = true →
      ((textStep (true, rows) line).2 = rows ∨
        ∃ r, (textStep (true, rows) line).2 = rows ++ [r] ∧
          isValidTransactionRow r = true) ∧
      ((regexStep (true, rows) line).2 = rows ∨
        ∃ r, (regexStep (true, rows) line).2 = rows ++ [r] ∧
          isValidTransactionRow r = true) := by
  intro rows line hmark
  rcases noiseMarkerCond_st _ hmark with ⟨c, hcmem, hcst⟩
  obtain ⟨hwF, hdF, hnF⟩ := st_char_props c hcst
  have hpfw := parseFixedWidthLine_valid (trimL line) c hcmem hcst
  constructor
  · right
    exact ⟨parseFixedWidthLine (String.mk (trimL line)),
      by simp [textStep, hpfw.1, hpfw.2], hpfw.1⟩
  · cases hm : matchTransactionLine (trimL line) with
    | some t =>
      obtain ⟨date, desc, m, sa⟩ := t
      right
      refine ⟨_, ?_, regexRow1_valid (trimL line) date desc m sa hm c hcmem hcst⟩
      simp [regexStep, hm]
    | none =>
      cases hdf : (dateFrag (trimL line)).isEmpty with
      | false =>
        right
        refine ⟨_, ?_, hpfw.1⟩
        simp [regexStep, hm, hdf, hpfw.2]
      | true =>
        have hval : isValidTransactionRow
            [some "", some "", some (String.mk (trimL line)), some "", some ""] = true := by
          refine isValid_row5 _ _ _ _ _ (by decide) ?_ ?_ <;>
            · right
              right
              show trimL (trimL line) ≠ []
              exact trimL_ne_nil _ c hcmem hwF
        simp only [regexStep, hm, hdf]
        simp only [Bool.not_true, Bool.false_and, Bool.and_false, Bool.if_false_left,
          Bool.not_false, Bool.true_and, if_false, Bool.false_eq_true]
        split
        · right
          exact ⟨[some "", some "", some (String.mk (trimL line)), some "", some ""], rfl, hval⟩
        · left
          rfl

/-- Witness for C5 at a concrete marker line (kept as a valid row by both
strategies). -/
theorem c5_noise_marker_filter_witness :
    ((textStep (true, []) "SALDO AKHIR 99".data).2 = ([] : List RawRow) ∨
      ∃ r, (textStep (true, []) "SALDO AKHIR 99".data).2 = [] ++ [r] ∧
        isValidTransactionRow r = true) ∧
    ((regexStep (true, []) "SALDO AKHIR 99".data).2 = ([] : List RawRow) ∨
      ∃ r, (regexStep (true, []) "SALDO AKHIR 99".data).2 = [] ++ [r] ∧
        isValidTransactionRow r = true) :=
  c5_noise_marker_filter [] "SALDO AKHIR 99".data (by decide)

end BankParser
